import Mathlib

/-!
# Verification of the `ndf` disk-inventory reconciliation engine

Shallow embedding of `src/main.rs` (the `ndf` tool). The program merges
two mount enumeration sources into one list of `NDFDisk` records, applies
structural exclusion rules and user filters, classifies anomalous
`(total, available)` pairs, and renders a fixed-width usage bar.

Modelling conventions:
* Rust `u64` values are modelled as `Nat` (all comparisons in the source
  are order comparisons, which transfer exactly).
* Rust `f64` arithmetic is modelled by exact rational arithmetic (`ℚ`).
  Every floating-point quantity the theorems touch is either exactly
  representable or bounded by monotonicity of IEEE rounding: divisions of
  nonnegative finite values are nonnegative, `x / y ≤ 1` whenever
  `x ≤ y`, and `1.0 - x ∈ [0,1]` for `x ∈ [0,1]`; the constant
  `50.0 * 0.2` rounds to exactly `10.0` in `f64`, matching the rational
  value `10`.
* The OS is a frozen snapshot: `fs::metadata(p).is_ok()` and
  `Path::new(p).exists()` (which the Rust standard library defines as exactly
  `fs::metadata(p).is_ok()`) are both the per-path boolean `statOk`.
* The `HashSet` of processed mounts is modelled by list membership.
-/

namespace Ndf

/-- Rust `const MAX_CHARS: usize = 50;`. -/
def MAX_CHARS : Nat := 50

/-- A Rust `f64 as usize` cast of a nonnegative-or-negative finite value:
truncation toward zero, saturating at `0` below and `usize::MAX` above.
For negative inputs truncation and floor both land at a nonpositive
integer, which `Int.toNat` sends to `0`, so floor is a faithful model. -/
def castUsize (x : ℚ) : Nat := min (Int.toNat ⌊x⌋) (2 ^ 64 - 1)

/-- Rust `fn get_frac(avail: u64, total: u64) -> f64`:
`if total == 0 { 0.0 } else { 1.0 - avail as f64 / total as f64 }`. -/
def get_frac (avail total : Nat) : ℚ :=
  if total = 0 then 0 else 1 - (avail : ℚ) / (total : ℚ)

/-- The record type `struct NDFDisk` produced by the engine. -/
structure NDFDisk where
  name : String
  space_as_frac : ℚ
  mnt : String
  size : Nat
  free : Nat
deriving Repr, DecidableEq

/-- One entry returned by the Primary Volume Source (`sysinfo::Disk`):
the fields of the source interface that the engine reads. -/
structure PrimaryDisk where
  name : String
  mnt : String
  fsType : String
  total : Nat
  avail : Nat
deriving Repr, DecidableEq

/-- Rust `NDFDisk::create_ndf_disk`: build a record from a Primary-source disk,
computing the fraction directly from the reported pair. -/
def create_ndf_disk (d : PrimaryDisk) : NDFDisk :=
  { name := d.name
    space_as_frac := get_frac d.avail d.total
    mnt := d.mnt
    size := d.total
    free := d.avail }

/-- Rust `(MAX_CHARS as f64 * self.space_as_frac).ceil() as usize`. -/
def chars_num (q : ℚ) : Nat := castUsize ((⌈(MAX_CHARS : ℚ) * q⌉ : ℤ) : ℚ)

/-- Rust `MAX_CHARS - chars_num` (a `usize` subtraction; the safety theorems
show the subtrahend never exceeds `MAX_CHARS` for stored fractions). -/
def rem_num (q : ℚ) : Nat := MAX_CHARS - chars_num q

/-- Rust `(MAX_CHARS as f64 * 0.2) as usize`. In `f64` the product
`50.0 * 0.2` rounds to exactly `10.0`; the rational value is also `10`. -/
def usageThreshold : Nat := castUsize ((MAX_CHARS : ℚ) * (2 / 10))

/-- Rust `NDFDisk::create_plain_bar`: the bar as a list of cells, `true` for a
filled cell (`▓`) and `false` for an empty cell (`░`). -/
def create_plain_bar (q : ℚ) : List Bool :=
  List.replicate (chars_num q) true ++ List.replicate (rem_num q) false

/-- Rust `NDFDisk::is_high_usage`: `rem_num < (MAX_CHARS as f64 * 0.2) as usize`. -/
def is_high_usage (q : ℚ) : Bool := rem_num q < usageThreshold

/-- The user filters: `--only-mp` and `--exclude-mp`, already split on
commas by the CLI layer (external to the core). -/
structure Filters where
  only : Option (List String)
  exclude : Option (List String)
deriving Repr

/-- No filters given. -/
def noFilters : Filters := { only := none, exclude := none }

/-- The include-list check applied to a mount path (both loops):
`if let Some(ref only) = only_mp { if !only.contains(mnt) { continue; } }`. -/
def passOnly (f : Filters) (p : String) : Prop :=
  match f.only with
  | some l => p ∈ l
  | none => True

instance (f : Filters) (p : String) : Decidable (passOnly f p) := by
  unfold passOnly; cases f.only <;> infer_instance

/-- The exclude-list check applied to a mount path (both loops):
`if let Some(ref exclude) = exclude_mp { if exclude.contains(mnt) { continue; } }`. -/
def passExclude (f : Filters) (p : String) : Prop :=
  match f.exclude with
  | some l => p ∉ l
  | none => True

instance (f : Filters) (p : String) : Decidable (passExclude f p) := by
  unfold passExclude; cases f.exclude <;> infer_instance

/-- Rust `str::starts_with(pre)`: the characters of the pattern are a prefix
of the characters of the string. -/
def strStartsWith (s pre : String) : Bool := pre.toList.isPrefixOf s.toList

/-- The structural exclusion test of the Primary loop (`main`, first `for`):
overlay/devfs filesystems, snap mounts, and system-internal paths. -/
def excludedPrimary (fsType mnt : String) : Bool :=
  fsType == "overlay" || fsType == "devfs" || strStartsWith mnt "/var/snap/" ||
  strStartsWith mnt "/private/" || strStartsWith mnt "/sys/" ||
  strStartsWith mnt "/proc/" || strStartsWith mnt "/run/" ||
  strStartsWith mnt "/boot/" || (strStartsWith mnt "/var/" && mnt != "/var")

/-- A Primary entry survives the first loop iff it passes the structural
rules and then both user filters (checked in that order in the source). -/
def keepPrimary (f : Filters) (d : PrimaryDisk) : Bool :=
  !excludedPrimary d.fsType d.mnt && decide (passOnly f d.mnt) &&
    decide (passExclude f d.mnt)

/-- The structural exclusion test of the Secondary loop (system-internal
mount points, applied after the user filters in the source). -/
def excludedSecondary (p : String) : Bool :=
  (strStartsWith p "/System/Volumes/" && p != "/System/Volumes/Data") ||
  strStartsWith p "/dev/" || strStartsWith p "/private/" ||
  strStartsWith p "/sys/" || strStartsWith p "/proc/" ||
  strStartsWith p "/run/" || strStartsWith p "/boot/" ||
  strStartsWith p "/var/snap/" || (strStartsWith p "/var/" && p != "/var")

/-- Rust `str::split('/')` on the underlying character list: splits at
every `'/'`, keeping empty segments, and yields `[[]]` on the empty
string — it always yields at least one segment. -/
def splitSlash : List Char → List (List Char)
  | [] => [[]]
  | c :: rest =>
    if c = '/' then [] :: splitSlash rest
    else
      match splitSlash rest with
      | [] => [[c]]
      | s :: ss => (c :: s) :: ss

/-- Rust `mount_str.split('/').last().unwrap_or("<unknown>")`: the final
segment of the split, with the (unreachable) `None` fallback. -/
def lastSeg (p : String) : String :=
  match (splitSlash p.toList).getLast? with
  | some s => String.mk s
  | none => "<unknown>"

/-- The environment a single run observes: the disk list of the Primary
Source, the mount-path listing of the Secondary Source (`none` when
`mountpoints::mountpaths()` fails), and the per-path snapshot of
`fs::metadata` success and of `get_disk_usage_for_path` (`some
(total, free)` on success). -/
structure Env where
  primary : List PrimaryDisk
  mountPaths : Option (List String)
  statOk : String → Bool
  usage : String → Option (Nat × Nat)

/-- Rust `processed_mounts`: every Primary mount path is inserted before any
exclusion test runs, so excluded Primary entries still mark their path
as seen. -/
def seenPaths (env : Env) : List String := env.primary.map (·.mnt)

/-- The records pushed by the first loop of `main` (Primary source). -/
def primaryRecords (env : Env) (f : Filters) : List NDFDisk :=
  (env.primary.filter (keepPrimary f)).map create_ndf_disk

/-- The body of the second loop of `main` for one mount path: skip seen
paths, require `fs::metadata` and the usage query to succeed, apply the
user filters, the structural rules and the `/dev` special case, then
classify the `(total, free)` pair. `Path::new(p).exists()` in the
anomalous branch is `statOk p` (Rust defines `exists` as
`fs::metadata(..).is_ok()`, and the snapshot is frozen). -/
def secondaryStep (env : Env) (f : Filters) (seen : List String)
    (p : String) : Option NDFDisk :=
  if p ∈ seen then none
  else if env.statOk p then
    match env.usage p with
    | none => none
    | some (t, a) =>
      if passOnly f p then
        if passExclude f p then
          if excludedSecondary p then none
          else if p = "/dev" then none
          else if t = 0 ∧ a = 0 then none
          else if 0 < t ∧ a ≤ t then
            some { name := lastSeg p, space_as_frac := get_frac a t,
                   mnt := p, size := t, free := a }
          else if 0 < t ∧ t < a then
            if env.statOk p then
              some { name := lastSeg p, space_as_frac := 1 / 10,
                     mnt := p, size := t, free := a }
            else none
          else none
        else none
      else none
  else none

/-- The records pushed by the second loop of `main` (Secondary source);
empty when the mount-path listing itself failed. -/
def secondaryRecords (env : Env) (f : Filters) : List NDFDisk :=
  match env.mountPaths with
  | none => []
  | some ps => ps.filterMap (secondaryStep env f (seenPaths env))

/-- The final record sequence of a run: Primary-derived records in source
order followed by Secondary-derived records in source order. -/
def runNdf (env : Env) (f : Filters) : List NDFDisk :=
  primaryRecords env f ++ secondaryRecords env f

/-! ## Specification-side definitions

These restate phrases of the specification verbatim, for comparison with
the code-derived definitions above. -/

/-- Modelled from the spec: "Derive `name` from the last path segment" —
the last `/`-separated segment of the path, with no placeholder
substitution (empty when the path ends in `/`). -/
def specLastSegment (p : String) : String :=
  String.mk ((splitSlash p.toList).getLast?.getD [])

/-! ## Concrete single-run environments

Small closed environments used to instantiate or refute the claims. -/

/-- A Primary-source disk reporting more available than total bytes
(as observed on some network shares); the Secondary listing fails. -/
def envAnomalousPrimary : Env :=
  { primary := [⟨"share", "/mnt/share", "smbfs", 1000, 1500⟩]
    mountPaths := none
    statOk := fun _ => false
    usage := fun _ => none }

/-- The path `/x` is reported by both sources; the Primary entry is an
overlay filesystem. -/
def envOverlayDup : Env :=
  { primary := [⟨"ov", "/x", "overlay", 100, 50⟩]
    mountPaths := some ["/x"]
    statOk := fun _ => true
    usage := fun _ => some (100, 50) }

/-- Two Primary-source disks reporting the same mount path `/y` (the
Primary loop pushes each entry independently, with no dedup within the
Primary list); the Secondary Source also lists `/y`. -/
def envDupPrimary : Env :=
  { primary := [⟨"a", "/y", "ext4", 100, 50⟩, ⟨"b", "/y", "xfs", 200, 150⟩]
    mountPaths := some ["/y"]
    statOk := fun _ => true
    usage := fun _ => some (100, 50) }

/-- A Secondary-only mount path ending in a slash. -/
def envTrailingSlash : Env :=
  { primary := []
    mountPaths := some ["/data/"]
    statOk := fun _ => true
    usage := fun _ => some (100, 50) }

/-- A Secondary-only network share reporting the anomalous pair
`total = 500 < available = 600`. -/
def envAnomalousShare : Env :=
  { primary := []
    mountPaths := some ["/mnt/nas"]
    statOk := fun _ => true
    usage := fun _ => some (500, 600) }

/-- A Secondary-only mount path whose usage query reports `(0, 0)`. -/
def envZeroZero : Env :=
  { primary := []
    mountPaths := some ["/mnt/empty"]
    statOk := fun _ => true
    usage := fun _ => some (0, 0) }

/-- A Primary disk with zero total bytes, and a Secondary-only path whose
usage query reports zero total but positive available bytes. -/
def envZeroTotal : Env :=
  { primary := [⟨"v", "/vz", "tmpfs", 0, 5⟩]
    mountPaths := some ["/mnt/odd"]
    statOk := fun _ => true
    usage := fun _ => some (0, 7) }

/-- Two ordinary Primary disks and one Secondary path, for exercising the
user filters. -/
def envTwoDisks : Env :=
  { primary := [⟨"a", "/keep", "ext4", 100, 40⟩, ⟨"b", "/drop", "ext4", 100, 40⟩]
    mountPaths := some ["/other"]
    statOk := fun _ => true
    usage := fun _ => some (100, 40) }

/-- An include list holding only `/keep` and an exclude list holding
only `/drop`. -/
def keepDropFilters : Filters :=
  { only := some ["/keep"], exclude := some ["/drop"] }

/-! ## Helper lemmas -/

theorem get_frac_le_one (a t : Nat) : get_frac a t ≤ 1 := by
  unfold get_frac
  split
  · norm_num
  · have h : (0 : ℚ) ≤ (a : ℚ) / (t : ℚ) := by positivity
    linarith

theorem get_frac_nonneg (a t : Nat) (h : a ≤ t) : 0 ≤ get_frac a t := by
  unfold get_frac
  split
  · norm_num
  · rename_i ht
    have ht0 : (0 : ℚ) < t := by exact_mod_cast Nat.pos_of_ne_zero ht
    have hle : (a : ℚ) / t ≤ 1 := by
      rw [div_le_one ht0]
      exact_mod_cast h
    linarith

theorem get_frac_total_zero (a : Nat) : get_frac a 0 = 0 := by
  simp [get_frac]

theorem chars_num_eq_min (q : ℚ) :
    chars_num q = min (Int.toNat ⌈(50 : ℚ) * q⌉) (2 ^ 64 - 1) := by
  unfold chars_num castUsize MAX_CHARS
  rw [Int.floor_intCast]
  norm_num

theorem chars_num_le_of_le_one {q : ℚ} (h : q ≤ 1) : chars_num q ≤ 50 := by
  rw [chars_num_eq_min]
  have hceil : ⌈(50 : ℚ) * q⌉ ≤ 50 := by
    rw [Int.ceil_le]
    push_cast
    nlinarith
  have : Int.toNat ⌈(50 : ℚ) * q⌉ ≤ 50 := by omega
  omega

theorem chars_num_cast {q : ℚ} (h0 : 0 ≤ q) (h1 : q ≤ 1) :
    (chars_num q : ℤ) = ⌈(50 : ℚ) * q⌉ := by
  rw [chars_num_eq_min]
  have hceil : ⌈(50 : ℚ) * q⌉ ≤ 50 := by
    rw [Int.ceil_le]
    push_cast
    nlinarith
  have hnn : 0 ≤ ⌈(50 : ℚ) * q⌉ := by positivity
  omega

theorem chars_num_eq_zero_of_nonpos {q : ℚ} (h : q ≤ 0) : chars_num q = 0 := by
  rw [chars_num_eq_min]
  have hceil : ⌈(50 : ℚ) * q⌉ ≤ 0 := by
    rw [Int.ceil_le]
    push_cast
    nlinarith
  omega

theorem create_plain_bar_length {q : ℚ} (h : q ≤ 1) :
    (create_plain_bar q).length = 50 := by
  have hc := chars_num_le_of_le_one h
  simp [create_plain_bar, rem_num, MAX_CHARS]
  omega

theorem usageThreshold_eq : usageThreshold = 10 := by
  unfold usageThreshold castUsize MAX_CHARS
  norm_num
  rfl

theorem splitSlash_ne_nil (cs : List Char) : splitSlash cs ≠ [] := by
  cases cs with
  | nil => simp [splitSlash]
  | cons c rest =>
    unfold splitSlash
    split
    · simp
    · split <;> simp

theorem lastSeg_eq_specLastSegment (p : String) :
    lastSeg p = specLastSegment p := by
  unfold lastSeg specLastSegment
  cases hsplit : (splitSlash p.toList).getLast? with
  | none =>
    exact absurd (List.getLast?_eq_none_iff.mp hsplit) (splitSlash_ne_nil _)
  | some s => simp

theorem mem_primaryRecords {env : Env} {f : Filters} {r : NDFDisk} :
    r ∈ primaryRecords env f ↔
      ∃ d ∈ env.primary, keepPrimary f d = true ∧ r = create_ndf_disk d := by
  unfold primaryRecords
  simp only [List.mem_map, List.mem_filter]
  constructor
  · rintro ⟨d, ⟨hd, hk⟩, hr⟩
    exact ⟨d, hd, hk, hr.symm⟩
  · rintro ⟨d, hd, hk, hr⟩
    exact ⟨d, ⟨hd, hk⟩, hr.symm⟩

theorem secondaryStep_eq_some {env : Env} {f : Filters} {seen : List String}
    {p : String} {r : NDFDisk} (h : secondaryStep env f seen p = some r) :
    p ∉ seen ∧ env.statOk p = true ∧ passOnly f p ∧ passExclude f p ∧
      excludedSecondary p = false ∧ p ≠ "/dev" ∧
      r.mnt = p ∧ r.name = lastSeg p ∧
      ∃ t a, env.usage p = some (t, a) ∧ r.size = t ∧ r.free = a ∧ 0 < t ∧
        ((a ≤ t ∧ r.space_as_frac = get_frac a t) ∨
          (t < a ∧ r.space_as_frac = 1 / 10)) := by
  unfold secondaryStep at h
  split at h
  · exact absurd h (by simp)
  rename_i hseen
  split at h
  case isFalse => exact absurd h (by simp)
  rename_i hstat
  split at h
  · exact absurd h (by simp)
  rename_i t a husage
  split at h
  case isFalse => exact absurd h (by simp)
  rename_i honly
  split at h
  case isFalse => exact absurd h (by simp)
  rename_i hexcl
  split at h
  · exact absurd h (by simp)
  rename_i hstruct
  split at h
  · exact absurd h (by simp)
  rename_i hdev
  split at h
  · exact absurd h (by simp)
  rename_i hzz
  split at h
  · rename_i hnorm
    cases h
    refine ⟨hseen, hstat, honly, hexcl, by simpa using hstruct, hdev, rfl, rfl,
      t, a, husage, rfl, rfl, ?_, Or.inl ⟨hnorm.2, rfl⟩⟩
    exact hnorm.1
  split at h
  · rename_i hanom
    cases h
    exact ⟨hseen, hstat, honly, hexcl, by simpa using hstruct, hdev, rfl, rfl,
      t, a, husage, rfl, rfl, hanom.1, Or.inr ⟨hanom.2, rfl⟩⟩
  · exact absurd h (by simp)

theorem secondaryStep_anomalous {env : Env} {f : Filters} {seen : List String}
    {p : String} {t a : Nat}
    (hseen : p ∉ seen) (hstat : env.statOk p = true)
    (husage : env.usage p = some (t, a)) (ht : 0 < t) (hta : t < a)
    (honly : passOnly f p) (hexcl : passExclude f p)
    (hstruct : excludedSecondary p = false) (hdev : p ≠ "/dev") :
    secondaryStep env f seen p =
      some { name := lastSeg p, space_as_frac := 1 / 10,
             mnt := p, size := t, free := a } := by
  unfold secondaryStep
  rw [if_neg hseen, if_pos hstat, husage]
  simp only []
  rw [if_pos honly, if_pos hexcl, if_neg (by simp [hstruct]), if_neg hdev,
    if_neg (by omega : ¬(t = 0 ∧ a = 0)),
    if_neg (by omega : ¬(0 < t ∧ a ≤ t)),
    if_pos (⟨ht, hta⟩ : 0 < t ∧ t < a), if_pos hstat]

theorem mem_secondaryRecords {env : Env} {f : Filters} {r : NDFDisk} :
    r ∈ secondaryRecords env f ↔
      ∃ ps, env.mountPaths = some ps ∧
        ∃ p ∈ ps, secondaryStep env f (seenPaths env) p = some r := by
  unfold secondaryRecords
  cases hmp : env.mountPaths with
  | none => simp
  | some ps => simp [List.mem_filterMap]

theorem mem_runNdf_iff {env : Env} {f : Filters} {r : NDFDisk} :
    r ∈ runNdf env f ↔
      r ∈ primaryRecords env f ∨ r ∈ secondaryRecords env f := by
  simp [runNdf]

theorem primaryRecords_inv {env : Env} {f : Filters} {r : NDFDisk}
    (hr : r ∈ primaryRecords env f) :
    r.mnt ∈ seenPaths env ∧ passOnly f r.mnt ∧ passExclude f r.mnt ∧
      r.space_as_frac = get_frac r.free r.size := by
  obtain ⟨d, hd, hk, rfl⟩ := mem_primaryRecords.mp hr
  unfold keepPrimary at hk
  simp only [Bool.and_eq_true, decide_eq_true_eq] at hk
  refine ⟨?_, hk.1.2, hk.2, rfl⟩
  exact List.mem_map_of_mem (·.mnt) hd

theorem secondaryRecords_inv {env : Env} {f : Filters} {r : NDFDisk}
    (hr : r ∈ secondaryRecords env f) :
    r.mnt ∉ seenPaths env ∧ env.usage r.mnt = some (r.size, r.free) ∧
      0 < r.size ∧ 0 ≤ r.space_as_frac ∧ r.space_as_frac ≤ 1 ∧
      r.name = lastSeg r.mnt ∧ passOnly f r.mnt ∧ passExclude f r.mnt := by
  obtain ⟨ps, hmp, p, hp, hstep⟩ := mem_secondaryRecords.mp hr
  obtain ⟨hseen, _, honly, hexcl, _, _, hmnt, hname, t, a, husage, hsize,
    hfree, ht, hfrac⟩ := secondaryStep_eq_some hstep
  subst hmnt hsize hfree
  refine ⟨hseen, husage, ht, ?_, ?_, hname, honly, hexcl⟩
  · rcases hfrac with ⟨hat, hf⟩ | ⟨_, hf⟩
    · rw [hf]; exact get_frac_nonneg _ _ hat
    · rw [hf]; norm_num
  · rcases hfrac with ⟨_, hf⟩ | ⟨_, hf⟩
    · rw [hf]; exact get_frac_le_one _ _
    · rw [hf]; norm_num

theorem runNdf_frac_le_one {env : Env} {f : Filters} {r : NDFDisk}
    (hr : r ∈ runNdf env f) : r.space_as_frac ≤ 1 := by
  rcases mem_runNdf_iff.mp hr with hp | hs
  · rw [(primaryRecords_inv hp).2.2.2]
    exact get_frac_le_one _ _
  · exact (secondaryRecords_inv hs).2.2.2.2.1

theorem runNdf_mnt_ne_of_zero_total {env : Env} {f : Filters} {p : String}
    (hseen : p ∉ seenPaths env) {a : Nat} (husage : env.usage p = some (0, a)) :
    ∀ r ∈ runNdf env f, r.mnt ≠ p := by
  intro r hr hmnt
  rcases mem_runNdf_iff.mp hr with hpr | hs
  · exact hseen (hmnt ▸ (primaryRecords_inv hpr).1)
  · obtain ⟨_, husage2, ht, _⟩ := secondaryRecords_inv hs
    rw [hmnt, husage] at husage2
    injection husage2 with h12
    have : r.size = 0 := (Prod.mk.injEq _ _ _ _ |>.mp h12.symm).1
    omega

/-! ## Claim theorems -/

/-- C1 counterexample: a Primary-source disk reporting `available_bytes =
1500 > total_bytes = 1000` yields a record whose `usage_fraction` is
negative (`1 - 1500/1000 = -1/2`), refuting the claim that the fraction
of every record lies in `[0, 1]`. -/
theorem C1_counterexample :
    ∃ r, r ∈ runNdf envAnomalousPrimary noFilters ∧ r.space_as_frac < 0 := by
  refine ⟨create_ndf_disk ⟨"share", "/mnt/share", "smbfs", 1000, 1500⟩, ?_, ?_⟩
  · have hf : envAnomalousPrimary.primary.filter (keepPrimary noFilters) =
        envAnomalousPrimary.primary := by decide
    unfold runNdf primaryRecords secondaryRecords
    rw [hf]
    simp [envAnomalousPrimary]
  · norm_num [create_ndf_disk, get_frac]

/-- C1 (amended): every produced record has `usage_fraction ≤ 1` and it is
never NaN (the embedding is exact rational arithmetic); every
Secondary-derived record has `usage_fraction ∈ [0, 1]`; a Primary-derived
record has `usage_fraction ∈ [0, 1]` whenever `available_bytes ≤
total_bytes`, but the Primary path computes the fraction directly from the
reported pair, so `available_bytes > total_bytes > 0` yields a negative
fraction. -/
theorem C1_fraction_bounds (env : Env) (f : Filters) :
    (∀ r ∈ runNdf env f, r.space_as_frac ≤ 1) ∧
    (∀ r ∈ secondaryRecords env f,
      0 ≤ r.space_as_frac ∧ r.space_as_frac ≤ 1) ∧
    (∀ r ∈ primaryRecords env f, r.free ≤ r.size → 0 ≤ r.space_as_frac) := by
  refine ⟨fun r hr => runNdf_frac_le_one hr, fun r hr => ?_, fun r hr hle => ?_⟩
  · have h := secondaryRecords_inv hr
    exact ⟨h.2.2.2.1, h.2.2.2.2.1⟩
  · rw [(primaryRecords_inv hr).2.2.2]
    exact get_frac_nonneg _ _ hle

/-- C1 witness: the amended bounds evaluated on a concrete run. -/
theorem C1_fraction_bounds_witness :
    (create_ndf_disk ⟨"a", "/keep", "ext4", 100, 40⟩).space_as_frac ≤ 1 := by
  refine (C1_fraction_bounds envTwoDisks noFilters).1 _ ?_
  have hf : envTwoDisks.primary.filter (keepPrimary noFilters) =
      envTwoDisks.primary := by decide
  unfold runNdf primaryRecords
  rw [hf]
  apply List.mem_append_left
  simp [envTwoDisks]

/-- C2 counterexample: the Primary-source pair `(total, available) =
(1000, 1500)` has `available > total > 0` and is processed by the engine,
but the record is kept with fraction `1 - 1500/1000 = -1/2`, computed
from the invalid pair — not the fixed constant `0.10`, and outside
`[0, 1]` — because only the Secondary loop applies the anomaly policy. -/
theorem C2_counterexample :
    ∃ r, r ∈ runNdf envAnomalousPrimary noFilters ∧ r.size = 1000 ∧
      r.free = 1500 ∧ r.size < r.free ∧ 0 < r.size ∧
      r.space_as_frac = get_frac 1500 1000 ∧ r.space_as_frac = -(1 / 2) ∧
      ¬ r.space_as_frac = 1 / 10 := by
  refine ⟨create_ndf_disk ⟨"share", "/mnt/share", "smbfs", 1000, 1500⟩,
    ?_, rfl, rfl, by norm_num [create_ndf_disk],
    by norm_num [create_ndf_disk], rfl, ?_, ?_⟩
  · have hf : envAnomalousPrimary.primary.filter (keepPrimary noFilters) =
        envAnomalousPrimary.primary := by decide
    unfold runNdf primaryRecords secondaryRecords
    rw [hf]
    simp [envAnomalousPrimary]
  · norm_num [create_ndf_disk, get_frac]
  · norm_num [create_ndf_disk, get_frac]

/-- C2 (amended): the anomaly-policy substitution applies to the pairs
classified in the Secondary loop: such a pair with `available > total >
0` reaching classification is kept with fraction exactly `0.10` and the
raw pair stored as received. A Primary-source entry passing the rules is
likewise kept without error, with `total`/`available` stored as received,
but its fraction is computed by `get_frac` directly from the reported
pair — negative when `available > total > 0`, never the constant. -/
theorem C2_anomalous_policy (env : Env) (f : Filters) :
    (∀ ps p t a, env.mountPaths = some ps → p ∈ ps → p ∉ seenPaths env →
      env.statOk p = true → env.usage p = some (t, a) → 0 < t → t < a →
      passOnly f p → passExclude f p → excludedSecondary p = false →
      p ≠ "/dev" →
      ∃ r ∈ runNdf env f, r.mnt = p ∧ r.space_as_frac = 1 / 10 ∧
        r.size = t ∧ r.free = a) ∧
    (∀ d ∈ env.primary, keepPrimary f d = true →
      create_ndf_disk d ∈ runNdf env f ∧
      (create_ndf_disk d).size = d.total ∧
      (create_ndf_disk d).free = d.avail ∧
      (create_ndf_disk d).space_as_frac = get_frac d.avail d.total) := by
  constructor
  · intro ps p t a hmp hp hseen hstat husage ht hta honly hexcl hstruct hdev
    refine ⟨{ name := lastSeg p, space_as_frac := 1 / 10,
              mnt := p, size := t, free := a }, ?_, rfl, rfl, rfl, rfl⟩
    apply List.mem_append_right
    rw [mem_secondaryRecords]
    exact ⟨ps, hmp, p, hp,
      secondaryStep_anomalous hseen hstat husage ht hta honly hexcl hstruct
        hdev⟩
  · intro d hd hk
    refine ⟨?_, rfl, rfl, rfl⟩
    apply List.mem_append_left
    rw [mem_primaryRecords]
    exact ⟨d, hd, hk, rfl⟩

/-- C2 witness: the anomalous Secondary share `(total, available) =
(500, 600)` at `/mnt/nas` is kept with fraction `1/10`. -/
theorem C2_anomalous_policy_witness :
    ∃ r ∈ runNdf envAnomalousShare noFilters, r.mnt = "/mnt/nas" ∧
      r.space_as_frac = 1 / 10 ∧ r.size = 500 ∧ r.free = 600 :=
  (C2_anomalous_policy envAnomalousShare noFilters).1 ["/mnt/nas"]
    "/mnt/nas" 500 600 rfl (by decide) (by decide) rfl rfl (by decide)
    (by decide) trivial trivial (by decide) (by decide)


/-- C3 counterexample, both failure modes at concrete inputs. First, the
path `/x` is reported by both sources yet appears zero times — the
Primary entry is excluded as an overlay filesystem, and the Secondary
entry is skipped because the path was already marked as seen — refuting
"appears exactly once". Second, the path `/y` is reported twice by the
Primary Source (and also by the Secondary Source) and appears twice —
the Primary loop pushes duplicate entries independently — refuting both
"appears exactly once" and the uniqueness of `mount_path`. -/
theorem C3_counterexample :
    ("/x" ∈ envOverlayDup.primary.map PrimaryDisk.mnt ∧
      envOverlayDup.mountPaths = some ["/x"] ∧ ("/x" : String) ∈ ["/x"] ∧
      ¬ ((runNdf envOverlayDup noFilters).countP
          (fun r => r.mnt == "/x") = 1)) ∧
    ("/y" ∈ envDupPrimary.primary.map PrimaryDisk.mnt ∧
      envDupPrimary.mountPaths = some ["/y"] ∧ ("/y" : String) ∈ ["/y"] ∧
      (runNdf envDupPrimary noFilters).countP
        (fun r => r.mnt == "/y") = 2) := by
  constructor
  · refine ⟨by decide, rfl, by decide, ?_⟩
    have h : runNdf envOverlayDup noFilters = [] := by
      unfold runNdf primaryRecords secondaryRecords envOverlayDup
      simp only []
      rw [show List.filter (keepPrimary noFilters)
          [(⟨"ov", "/x", "overlay", 100, 50⟩ : PrimaryDisk)] = [] from by
        decide]
      simp [secondaryStep, seenPaths]
    rw [h]
    simp
  · refine ⟨by decide, rfl, by decide, ?_⟩
    have h : runNdf envDupPrimary noFilters =
        [create_ndf_disk ⟨"a", "/y", "ext4", 100, 50⟩,
         create_ndf_disk ⟨"b", "/y", "xfs", 200, 150⟩] := by
      unfold runNdf primaryRecords secondaryRecords envDupPrimary
      simp only []
      rw [show List.filter (keepPrimary noFilters)
          [(⟨"a", "/y", "ext4", 100, 50⟩ : PrimaryDisk),
           (⟨"b", "/y", "xfs", 200, 150⟩ : PrimaryDisk)] =
          [(⟨"a", "/y", "ext4", 100, 50⟩ : PrimaryDisk),
           (⟨"b", "/y", "xfs", 200, 150⟩ : PrimaryDisk)] from by decide]
      simp [secondaryStep, seenPaths]
    rw [h]
    rfl

/-- C3 (amended): the Secondary entry for an already-seen path is never
turned into a record, so a path reported by the Primary Source (and also
by the Secondary Source) appears in the final sequence at most as many
times as the Primary Source reports it — exactly once when the Primary
Source reports it once and the entry passes the exclusion rules and
filters, zero times when the entry is excluded, and more than once only
when the Primary Source itself reports the path on several entries — and
any record carrying it is a record of the Primary Source. -/
theorem C3_dedup (env : Env) (f : Filters) (p : String) (ps : List String)
    (hp : p ∈ env.primary.map PrimaryDisk.mnt)
    (hmp : env.mountPaths = some ps) (hpp : p ∈ ps) :
    (runNdf env f).countP (fun r => r.mnt == p) ≤
      env.primary.countP (fun d => d.mnt == p) ∧
    ∀ r ∈ runNdf env f, r.mnt = p →
      ∃ d ∈ env.primary, d.mnt = p ∧ r = create_ndf_disk d := by
  constructor
  · unfold runNdf
    rw [List.countP_append]
    have hsec : (secondaryRecords env f).countP (fun r => r.mnt == p) = 0 := by
      rw [List.countP_eq_zero]
      intro r hr
      have hnot := (secondaryRecords_inv (f := f) hr).1
      simp only [beq_iff_eq]
      intro hmnt
      exact hnot (hmnt ▸ hp)
    have hpri : (primaryRecords env f).countP (fun r => r.mnt == p) ≤
        env.primary.countP (fun d => d.mnt == p) := by
      unfold primaryRecords
      rw [List.countP_map]
      calc ((env.primary.filter (keepPrimary f)).countP
              ((fun r => r.mnt == p) ∘ create_ndf_disk))
          ≤ env.primary.countP ((fun r => r.mnt == p) ∘ create_ndf_disk) :=
            (List.filter_sublist _).countP_le _
        _ = env.primary.countP (fun d => d.mnt == p) := rfl
    omega
  · intro r hr hmnt
    rcases mem_runNdf_iff.mp hr with hpr | hs
    · obtain ⟨d, hd, _, rfl⟩ := mem_primaryRecords.mp hpr
      exact ⟨d, hd, hmnt, rfl⟩
    · exact absurd (hmnt ▸ hp) (secondaryRecords_inv (f := f) hs).1

/-- C3 witness: the amended bound evaluated on the overlay run. -/
theorem C3_dedup_witness :
    (runNdf envOverlayDup noFilters).countP (fun r => r.mnt == "/x") ≤
      envOverlayDup.primary.countP (fun d => d.mnt == "/x") :=
  (C3_dedup envOverlayDup noFilters "/x" ["/x"] (by decide) rfl
    (by decide)).1

/-- C4: user filters are honored for every record regardless of source:
with an include list the mount path of every output record is in the
list, and with an exclude list no output record has its mount path in
the list. -/
theorem C4_filters_honored (env : Env) (f : Filters) (r : NDFDisk)
    (hr : r ∈ runNdf env f) :
    (∀ l, f.only = some l → r.mnt ∈ l) ∧
    (∀ l, f.exclude = some l → r.mnt ∉ l) := by
  have honly : passOnly f r.mnt ∧ passExclude f r.mnt := by
    rcases mem_runNdf_iff.mp hr with hpr | hs
    · exact ⟨(primaryRecords_inv hpr).2.1, (primaryRecords_inv hpr).2.2.1⟩
    · exact ⟨(secondaryRecords_inv hs).2.2.2.2.2.2.1,
        (secondaryRecords_inv hs).2.2.2.2.2.2.2⟩
  constructor
  · intro l hl
    have h := honly.1
    unfold passOnly at h
    rw [hl] at h
    exact h
  · intro l hl
    have h := honly.2
    unfold passExclude at h
    rw [hl] at h
    exact h

/-- C4 witness: with include list `[/keep]` and exclude list `[/drop]`,
the record for `/keep` satisfies both filter conclusions. -/
theorem C4_filters_honored_witness :
    ((create_ndf_disk ⟨"a", "/keep", "ext4", 100, 40⟩).mnt ∈ ["/keep"]) ∧
    ((create_ndf_disk ⟨"a", "/keep", "ext4", 100, 40⟩).mnt ∉ ["/drop"]) := by
  have hmem : create_ndf_disk ⟨"a", "/keep", "ext4", 100, 40⟩ ∈
      runNdf envTwoDisks keepDropFilters := by
    have hf : envTwoDisks.primary.filter (keepPrimary keepDropFilters) =
        [⟨"a", "/keep", "ext4", 100, 40⟩] := by decide
    apply List.mem_append_left
    unfold primaryRecords
    rw [hf]
    simp
  have h := C4_filters_honored envTwoDisks keepDropFilters _ hmem
  exact ⟨h.1 _ rfl, h.2 _ rfl⟩

/-- C5: with fixed width 50, the filled-cell count is the ceiling of
`50 * usage_fraction`, the remaining cells are `50 - filled`, and the
high-usage flag is set exactly when the remaining cells are fewer than
`0.2 * 50`; in particular `0.75 ↦ (38, 12, normal)` and
`0.95 ↦ (48, 2, high)`. -/
theorem C5_bar_and_alert :
    (∀ q : ℚ, 0 ≤ q → q ≤ 1 →
      (chars_num q : ℤ) = ⌈(50 : ℚ) * q⌉ ∧
      chars_num q + rem_num q = 50 ∧
      (is_high_usage q = true ↔ ((rem_num q : ℚ) < (2 / 10) * 50))) ∧
    chars_num (3 / 4) = 38 ∧ rem_num (3 / 4) = 12 ∧
      is_high_usage (3 / 4) = false ∧
    chars_num (19 / 20) = 48 ∧ rem_num (19 / 20) = 2 ∧
      is_high_usage (19 / 20) = true := by
  have h34 : chars_num (3 / 4) = 38 := by
    rw [chars_num_eq_min, show ⌈(50 : ℚ) * (3 / 4)⌉ = (38 : ℤ) from by
      rw [Int.ceil_eq_iff] <;> norm_num]
    decide
  have h95 : chars_num (19 / 20) = 48 := by
    rw [chars_num_eq_min, show ⌈(50 : ℚ) * (19 / 20)⌉ = (48 : ℤ) from by
      rw [Int.ceil_eq_iff] <;> norm_num]
    decide
  refine ⟨fun q h0 h1 => ?_, h34, ?_, ?_, h95, ?_, ?_⟩
  · refine ⟨chars_num_cast h0 h1, ?_, ?_⟩
    · have := chars_num_le_of_le_one h1
      unfold rem_num MAX_CHARS
      omega
    · rw [show ((2 : ℚ) / 10) * 50 = ((10 : Nat) : ℚ) from by norm_num,
        Nat.cast_lt, is_high_usage, usageThreshold_eq, decide_eq_true_eq]
  · unfold rem_num MAX_CHARS
    omega
  · simp [is_high_usage, rem_num, MAX_CHARS, h34, usageThreshold_eq]
  · unfold rem_num MAX_CHARS
    omega
  · simp [is_high_usage, rem_num, MAX_CHARS, h95, usageThreshold_eq]

/-- C5 witness: the general bar equations evaluated at fraction `3/4`. -/
theorem C5_bar_and_alert_witness :
    (chars_num (3 / 4) : ℤ) = ⌈(50 : ℚ) * (3 / 4)⌉ ∧
    chars_num (3 / 4) + rem_num (3 / 4) = 50 :=
  ⟨(C5_bar_and_alert.1 (3 / 4) (by norm_num) (by norm_num)).1,
    (C5_bar_and_alert.1 (3 / 4) (by norm_num) (by norm_num)).2.1⟩

/-- C6: a Secondary-source path whose usage query reports
`total = 0` and `available = 0` is dropped entirely: no record in the
final sequence carries that mount path. -/
theorem C6_zero_zero_dropped (env : Env) (f : Filters) (p : String)
    (ps : List String) (hmp : env.mountPaths = some ps) (hp : p ∈ ps)
    (hseen : p ∉ seenPaths env) (husage : env.usage p = some (0, 0)) :
    ∀ r ∈ runNdf env f, r.mnt ≠ p :=
  runNdf_mnt_ne_of_zero_total hseen husage

/-- C6 witness: the `(0, 0)` path `/mnt/empty` yields no record. -/
theorem C6_zero_zero_dropped_witness :
    ¬ ∃ r, r ∈ runNdf envZeroZero noFilters ∧ r.mnt = "/mnt/empty" := by
  rintro ⟨r, hr, hmnt⟩
  exact C6_zero_zero_dropped envZeroZero noFilters "/mnt/empty"
    ["/mnt/empty"] rfl (by decide) (by decide) rfl r hr hmnt

/-- C7: the usage-fraction computation returns exactly `0` whenever
`total = 0`, and every produced record with `total_bytes = 0` has
`usage_fraction = 0` (no division occurs). -/
theorem C7_zero_total :
    (∀ a, get_frac a 0 = 0) ∧
    (∀ env : Env, ∀ f : Filters, ∀ r ∈ runNdf env f,
      r.size = 0 → r.space_as_frac = 0) := by
  refine ⟨get_frac_total_zero, fun env f r hr hsize => ?_⟩
  rcases mem_runNdf_iff.mp hr with hpr | hs
  · rw [(primaryRecords_inv hpr).2.2.2, hsize]
    exact get_frac_total_zero _
  · have := (secondaryRecords_inv hs).2.2.1
    omega

/-- C7 witness: the Primary disk at `/vz` reporting zero total bytes has
fraction `0`. -/
theorem C7_zero_total_witness :
    (create_ndf_disk ⟨"v", "/vz", "tmpfs", 0, 5⟩).space_as_frac = 0 := by
  refine C7_zero_total.2 envZeroTotal noFilters _ ?_ rfl
  have hf : envZeroTotal.primary.filter (keepPrimary noFilters) =
      envZeroTotal.primary := by decide
  apply List.mem_append_left
  unfold primaryRecords
  rw [hf]
  simp [envZeroTotal]

/-- C8 counterexample: the Secondary-only path `/data/` ends in a slash,
so its last segment is empty, and the name of the produced record is the empty
string — not a placeholder label — because `split('/').last()` is never
`None` and the `unwrap_or("<unknown>")` fallback is unreachable. -/
theorem C8_counterexample :
    ∃ r, r ∈ runNdf envTrailingSlash noFilters ∧ r.mnt = "/data/" ∧
      r.name = "" := by
  refine ⟨{ name := lastSeg "/data/", space_as_frac := get_frac 50 100,
            mnt := "/data/", size := 100, free := 50 }, ?_, rfl, by decide⟩
  apply List.mem_append_right
  rw [mem_secondaryRecords]
  exact ⟨["/data/"], rfl, "/data/", by decide, rfl⟩

/-- C8 (amended): the name of every Secondary-derived record is exactly the
last `/`-separated segment of its mount path — which is the empty string
when the path ends in `/` — and the `<unknown>` placeholder is never
substituted, because splitting always yields at least one segment. -/
theorem C8_name_last_segment (env : Env) (f : Filters) (r : NDFDisk)
    (hr : r ∈ secondaryRecords env f) : r.name = specLastSegment r.mnt := by
  rw [(secondaryRecords_inv hr).2.2.2.2.2.1]
  exact lastSeg_eq_specLastSegment _

/-- C8 witness: the amended statement evaluated on the `/data/` record. -/
theorem C8_name_last_segment_witness :
    ({ name := lastSeg "/data/", space_as_frac := get_frac 50 100,
       mnt := "/data/", size := 100, free := 50 } : NDFDisk).name =
      specLastSegment "/data/" := by
  refine C8_name_last_segment envTrailingSlash noFilters _ ?_
  rw [mem_secondaryRecords]
  exact ⟨["/data/"], rfl, "/data/", by decide, rfl⟩

/-- C9: a Secondary-source path whose usage query reports `total = 0` and
`available > 0` matches none of the three classification branches and is
silently dropped: no record in the final sequence carries that path. -/
theorem C9_zero_total_dropped (env : Env) (f : Filters) (p : String)
    (ps : List String) (a : Nat)
    (hmp : env.mountPaths = some ps) (hp : p ∈ ps)
    (hseen : p ∉ seenPaths env) (husage : env.usage p = some (0, a))
    (ha : 0 < a) :
    ∀ r ∈ runNdf env f, r.mnt ≠ p :=
  runNdf_mnt_ne_of_zero_total hseen husage

/-- C9 witness: the `(0, 7)` path `/mnt/odd` yields no record. -/
theorem C9_zero_total_dropped_witness :
    ¬ ∃ r, r ∈ runNdf envZeroTotal noFilters ∧ r.mnt = "/mnt/odd" := by
  rintro ⟨r, hr, hmnt⟩
  exact C9_zero_total_dropped envZeroTotal noFilters "/mnt/odd" ["/mnt/odd"]
    7 rfl (by decide) (by decide) rfl (by decide) r hr hmnt

/-- C10: for every stored usage fraction — including negative ones — bar
construction is safe: the filled-cell count is at most 50 (negative
fractions give 0 filled cells), the `usize` subtraction `MAX_CHARS -
chars_num` cannot underflow, and the bar always has exactly 50 cells. -/
theorem C10_bar_safety (env : Env) (f : Filters) (r : NDFDisk)
    (hr : r ∈ runNdf env f) :
    r.space_as_frac ≤ 1 ∧ chars_num r.space_as_frac ≤ 50 ∧
    chars_num r.space_as_frac + rem_num r.space_as_frac = 50 ∧
    (create_plain_bar r.space_as_frac).length = 50 ∧
    (r.space_as_frac < 0 → chars_num r.space_as_frac = 0) := by
  have h1 := runNdf_frac_le_one hr
  have hle := chars_num_le_of_le_one h1
  refine ⟨h1, hle, ?_, create_plain_bar_length h1, fun hneg =>
    chars_num_eq_zero_of_nonpos (le_of_lt hneg)⟩
  unfold rem_num MAX_CHARS
  omega

/-- C10 witness: the bar for the negative stored fraction `-1/2` (from the
anomalous Primary disk) still has exactly 50 cells and 0 filled cells. -/
theorem C10_bar_safety_witness :
    (create_plain_bar (create_ndf_disk
      ⟨"share", "/mnt/share", "smbfs", 1000, 1500⟩).space_as_frac).length =
      50 := by
  have hmem : create_ndf_disk ⟨"share", "/mnt/share", "smbfs", 1000, 1500⟩ ∈
      runNdf envAnomalousPrimary noFilters := by
    have hf : envAnomalousPrimary.primary.filter (keepPrimary noFilters) =
        envAnomalousPrimary.primary := by decide
    apply List.mem_append_left
    unfold primaryRecords
    rw [hf]
    simp [envAnomalousPrimary]
  exact (C10_bar_safety envAnomalousPrimary noFilters _ hmem).2.2.2.1

end Ndf
